import Mathlib

/-!
Verification development for the fileStore repository.

The repository tracks externally stored data files ("resources") by a
(root, resource_path) split plus metadata, and supports two mutations with
provenance: a logical root shift (moving path segments across the boundary)
and a physical root change (relocating files), both appending to an
append-only history ledger.

Paths are embedded as lists of segments: a root is the list of segments of
an absolute path (the empty list renders as "/"), a relative path is its
list of segments, and joining is list append.  The core store
(filestore/fs.py) is not present in this source tree -- only its test suite
is -- so the store operations below are modelled from the specification;
the NpyWriter definitions further down are embedded directly from
src/filestore/file_writers.py.
-/

/-- Key-value metadata mappings (resource_kwargs, datum_kwargs, custom). -/
abbrev KV := List (String × String)

/-- Modelled from the spec: the error taxonomy of section 7 that the modelled
operations can raise (the missing filestore/fs.py surfaces these as
exceptions). -/
inductive FsError
  | OutOfRangeShift
  | ZeroShift
  | UnknownDatum
  | UnknownResource
  | UnregisteredSpec
deriving DecidableEq, Repr

/-- Modelled from the spec: a Resource record of section 3 (the record type of
the missing filestore/fs.py).  root and resource_path are segment lists whose
append is the absolute location. -/
structure Resource where
  uid : Nat
  spec : String
  root : List String
  resource_path : List String
  resource_kwargs : KV
deriving DecidableEq, Repr

/-- Modelled from the spec: the cmd_kwargs payload of a history entry, either
the shift amount of a shift_root or the (new_root, remove_origin) arguments
of a change_root. -/
inductive CmdKwargs
  | shiftKw (d : Int)
  | changeKw (newRoot : List String) (remove_origin : Bool)
deriving DecidableEq, Repr

/-- Modelled from the spec: one immutable history ledger entry of section 3,
with before/after snapshots of the mutated resource. -/
structure HistoryEntry where
  resource_uid : Nat
  time : Nat
  cmd : String
  cmd_kwargs : CmdKwargs
  old : Resource
  new : Resource
deriving DecidableEq, Repr

/-- A file on the modelled filesystem: an absolute path (segment list) and an
opaque content identifier standing for the stored bytes. -/
structure FileRec where
  path : List String
  content : Nat
deriving DecidableEq, Repr

/-- Modelled from the spec: a Datum record of section 3 (the record type of
the missing filestore/fs.py). -/
structure Datum where
  datum_id : String
  resource_uid : Nat
  datum_kwargs : KV
deriving DecidableEq, Repr

/-- Modelled from the spec: the whole observable state of the missing
filestore/fs.py store -- current resource records, datum records, the
append-only history ledger, the filesystem, a clock for mutation times and a
counter for fresh uids. -/
structure FS where
  resources : List Resource
  datums : List Datum
  history : List HistoryEntry
  files : List FileRec
  clock : Nat
  nextUid : Nat
deriving DecidableEq, Repr

/-- Modelled from the spec: joining a root and a relative path; on segment
lists this is append, and the invariant of section 3 is about this join. -/
def joinPath (root rel : List String) : List String :=
  root ++ rel

/-- Render a root segment list as the absolute path string it stands for
(the empty list is the filesystem root "/"). -/
def renderAbs (segs : List String) : String :=
  "/" ++ String.intercalate ("/") segs

/-- Render a relative path segment list as a string. -/
def renderRel (segs : List String) : String :=
  String.intercalate ("/") segs

/-- Modelled from the spec: the Path Model shift of section 4.1 (part of the
missing filestore/fs.py).  A positive delta moves leading segments of
resource_path into root; a negative delta moves trailing segments of root
into resource_path; a delta past the movable segments on the requested side
fails with OutOfRangeShift. -/
def shiftSplit (root rpath : List String) (d : Int) :
    Except FsError (List String × List String) :=
  if 0 < d then
    if d.toNat ≤ rpath.length then
      Except.ok (root ++ rpath.take d.toNat, rpath.drop d.toNat)
    else
      Except.error FsError.OutOfRangeShift
  else
    if (-d).toNat ≤ root.length then
      Except.ok (root.take (root.length - (-d).toNat),
                 root.drop (root.length - (-d).toNat) ++ rpath)
    else
      Except.error FsError.OutOfRangeShift

/-- Modelled from the spec: shift_root of section 4.2 (missing
filestore/fs.py).  Validates delta, computes the new split, builds the
superseding record, appends one ledger entry and persists the new record as
current. -/
def shift_root (fs : FS) (r : Resource) (d : Int) :
    Except FsError (FS × Resource × HistoryEntry) :=
  if d = 0 then
    Except.error FsError.ZeroShift
  else
    match shiftSplit r.root r.resource_path d with
    | Except.error e => Except.error e
    | Except.ok (newRoot, newPath) =>
      let newRes : Resource :=
        { r with root := newRoot, resource_path := newPath }
      let entry : HistoryEntry :=
        { resource_uid := r.uid, time := fs.clock + 1, cmd := "shift_root",
          cmd_kwargs := CmdKwargs.shiftKw d, old := r, new := newRes }
      Except.ok
        ({ fs with
            resources := newRes :: fs.resources.filter (fun x => decide (x.uid ≠ r.uid)),
            history := fs.history ++ [entry],
            clock := fs.clock + 1 },
         newRes, entry)

/-- Modelled from the spec: get_history of section 4.3 (missing
filestore/fs.py) -- the ledger entries of one resource, oldest first. -/
def get_history (fs : FS) (uid : Nat) : List HistoryEntry :=
  fs.history.filter (fun e => decide (e.resource_uid = uid))

/-- Modelled from the spec: insert_resource of section 4.2 (missing
filestore/fs.py); a fresh uid, no history entry for the initial insert. -/
def insert_resource (fs : FS) (spec : String) (resource_path : List String)
    (resource_kwargs : KV) (root : List String) : FS × Resource :=
  let r : Resource :=
    { uid := fs.nextUid, spec := spec, root := root,
      resource_path := resource_path, resource_kwargs := resource_kwargs }
  ({ fs with resources := r :: fs.resources, nextUid := fs.nextUid + 1 }, r)

/-- Modelled from the spec: insert_datum of section 4.4 (missing
filestore/fs.py). -/
def insert_datum (fs : FS) (r : Resource) (datum_id : String)
    (datum_kwargs : KV) : FS × Datum :=
  let d : Datum :=
    { datum_id := datum_id, resource_uid := r.uid, datum_kwargs := datum_kwargs }
  ({ fs with datums := d :: fs.datums }, d)

/-- Destination of one moved file: the destination tree followed by the
file's offset relative to the source tree. -/
def destOf (src dst p : List String) : List String :=
  dst ++ p.drop src.length

/-- The files enumerated under the source tree before any copying. -/
def movedUnder (files : List FileRec) (src : List String) : List FileRec :=
  files.filter (fun f => decide (src <+: f.path))

/-- The copies produced by a move: each enumerated file at the same relative
offset under the destination tree, with the same content. -/
def copiesFor (files : List FileRec) (src dst : List String) : List FileRec :=
  (movedUnder files src).map (fun f => FileRec.mk (destOf src dst f.path) f.content)

/-- Modelled from the spec: move_tree of the File Mover, section 4.6 (missing
filestore/fs.py).  src and dst are the joined absolute source and destination
trees.  Every file under src is enumerated, copied to the same relative
offset under dst (a copy replaces any file already at its destination path),
and, only when remove_origin is set, the enumerated source paths are deleted
after all copies are in place.  Copies in this pure model always succeed. -/
def move_tree (files : List FileRec) (src dst : List String)
    (remove_origin : Bool) : List FileRec :=
  let moved := movedUnder files src
  let copies := copiesFor files src dst
  let afterCopy :=
    files.filter (fun f => decide (¬ f.path ∈ copies.map FileRec.path)) ++ copies
  if remove_origin then
    afterCopy.filter (fun f => decide (¬ f.path ∈ moved.map FileRec.path))
  else
    afterCopy

/-- Modelled from the spec: change_root of section 4.2 (missing
filestore/fs.py).  Moves the files, builds the superseding record with the
new root and the same resource_path, appends one ledger entry and persists
the new record as current. -/
def change_root (fs : FS) (r : Resource) (newRoot : List String)
    (remove_origin : Bool) : FS × Resource × HistoryEntry :=
  let src := joinPath r.root r.resource_path
  let dst := joinPath newRoot r.resource_path
  let newRes : Resource := { r with root := newRoot }
  let entry : HistoryEntry :=
    { resource_uid := r.uid, time := fs.clock + 1, cmd := "change_root",
      cmd_kwargs := CmdKwargs.changeKw newRoot remove_origin, old := r, new := newRes }
  ({ fs with
      files := move_tree fs.files src dst remove_origin,
      resources := newRes :: fs.resources.filter (fun x => decide (x.uid ≠ r.uid)),
      history := fs.history ++ [entry],
      clock := fs.clock + 1 },
   newRes, entry)

/-- Whether the modelled filesystem has a file at the given path. -/
def fileExists (files : List FileRec) (p : List String) : Bool :=
  files.any (fun f => decide (f.path = p))

/-- Content stored at the given path, if any. -/
def readFile (files : List FileRec) (p : List String) : Option Nat :=
  (files.find? (fun f => decide (f.path = p))).map FileRec.content

/-- Modelled from the spec: retrieve of section 4.5 (missing
filestore/fs.py).  A handler capability is modelled as a function from
resource_kwargs and datum_kwargs to the relative file name it decodes, and
the decoded data is the content of that file under the resource's current
absolute location; reg is the handler registry keyed by type tag. -/
def retrieve (reg : String → Option (KV → KV → List String)) (fs : FS)
    (datum_id : String) : Except FsError (Option Nat) :=
  match fs.datums.find? (fun x => decide (x.datum_id = datum_id)) with
  | none => Except.error FsError.UnknownDatum
  | some d =>
    match fs.resources.find? (fun x => decide (x.uid = d.resource_uid)) with
    | none => Except.error FsError.UnknownResource
    | some res =>
      match reg res.spec with
      | none => Except.error FsError.UnregisteredSpec
      | some h =>
        Except.ok (readFile fs.files
          (joinPath res.root res.resource_path ++ h res.resource_kwargs d.datum_kwargs))

/-- Modelled from the spec: one mutation applicable to a resource (section
2): a logical root shift or a physical root change. -/
inductive Mutation
  | shift (d : Int)
  | chroot (newRoot : List String) (remove_origin : Bool)
deriving DecidableEq, Repr

/-- Apply one mutation to the store, returning the new store and the
superseding resource record. -/
def applyMut (fs : FS) (r : Resource) : Mutation → Except FsError (FS × Resource)
  | Mutation.shift d =>
    match shift_root fs r d with
    | Except.error e => Except.error e
    | Except.ok (fs', r', _) => Except.ok (fs', r')
  | Mutation.chroot nr rm =>
    let out := change_root fs r nr rm
    Except.ok (out.1, out.2.1)

/-- Apply a sequence of mutations to one resource, threading the superseding
record through; the first failure aborts the run. -/
def applyMuts (fs : FS) (r : Resource) : List Mutation → Except FsError (FS × Resource)
  | [] => Except.ok (fs, r)
  | m :: ms =>
    match applyMut fs r m with
    | Except.error e => Except.error e
    | Except.ok (fs', r') => applyMuts fs' r' ms

/-- The times of a history sequence are strictly increasing and all exceed
the lower bound. -/
def timesChain (lb : Nat) : List HistoryEntry → Bool
  | [] => true
  | e :: t => decide (lb < e.time) && timesChain e.time t

/-- The time of the last entry, or the lower bound for an empty sequence. -/
def lastTime (lb : Nat) : List HistoryEntry → Nat
  | [] => lb
  | e :: t => lastTime e.time t

/-- A history sequence is an unbroken chain from the insertion snapshot r0 to
the current record rc: the first old snapshot is r0, each entry's new
snapshot is the next entry's old snapshot, and the last new snapshot is rc. -/
def histChain (r0 : Resource) : List HistoryEntry → Resource → Bool
  | [], rc => decide (rc = r0)
  | e :: t, rc => decide (e.old = r0) && histChain e.new t rc

/-- Errors raised by the NpyWriter code in src/filestore/file_writers.py:
IOError for an occupied path, ValueError for bad custom arguments,
RuntimeError for reuse of a spent writer. -/
inductive WriterErr
  | ioError
  | valueError
  | runtimeError
deriving DecidableEq, Repr

/-- State of one NpyWriter instance (src/filestore/file_writers.py): the
target path, the validated custom mapping and the writable flag. -/
structure NpyWriter where
  fpath : String
  f_custom : KV
  writable : Bool
deriving DecidableEq, Repr

/-- The world the writer touches: the disk (path to saved array content) and
the FileStore registrations made by insert_resource and insert_nugget, plus
a seed for generated uids (uuid1). -/
structure WriterWorld where
  files : List (String × Nat)
  resources : List (String × String × KV)
  nuggets : List String
  seed : Nat
deriving DecidableEq, Repr

/-- Whether a file exists on the writer's disk at the given path
(os.path.exists). -/
def wExists (w : WriterWorld) (fpath : String) : Bool :=
  w.files.any (fun f => decide (f.1 = fpath))

/-- Embeds NpyWriter.__init__ from src/filestore/file_writers.py: raises
IOError if the requested file already exists, then rejects any custom key
other than mmap_mode, then records the path and custom mapping and marks the
writer writable. -/
def NpyWriter.init? (w : WriterWorld) (fpath : String) (custom : KV) :
    Except WriterErr NpyWriter :=
  if wExists w fpath then
    Except.error WriterErr.ioError
  else if custom.any (fun kv => decide (kv.1 ≠ "mmap_mode")) then
    Except.error WriterErr.valueError
  else
    Except.ok { fpath := fpath, f_custom := custom, writable := true }

/-- Embeds NpyWriter.add_data from src/filestore/file_writers.py: raises
RuntimeError if the writer was already used, ValueError if custom is truthy,
IOError if a file exists at the writer's path at the time of the write;
otherwise saves the array, marks the writer spent, registers a resource with
spec "npy" and a nugget, and returns the (possibly generated) uid.  An error
return leaves the world untouched: nothing is saved or registered. -/
def add_data (wr : NpyWriter) (w : WriterWorld) (data : Nat)
    (uid : Option String) (custom : KV) :
    Except WriterErr (NpyWriter × WriterWorld × String) :=
  if wr.writable = false then
    Except.error WriterErr.runtimeError
  else if custom ≠ [] then
    Except.error WriterErr.valueError
  else if wExists w wr.fpath then
    Except.error WriterErr.ioError
  else
    let u := match uid with
      | some u => u
      | none => "uuid-" ++ toString w.seed
    let seed' := match uid with
      | some _ => w.seed
      | none => w.seed + 1
    let w' : WriterWorld :=
      { files := w.files ++ [(wr.fpath, data)],
        resources := w.resources ++ [("npy", wr.fpath, wr.f_custom)],
        nuggets := w.nuggets ++ [u],
        seed := seed' }
    Except.ok ({ wr with writable := false }, w', u)

deriving instance DecidableEq for Except

/-- An empty store, the starting state of the concrete runs below. -/
def fsW0 : FS :=
  { resources := [], datums := [], history := [], files := [], clock := 0, nextUid := 0 }

/-- The resource of the concrete shift scenario: root "/" and resource_path
"0/1/2/3/4". -/
def resW0 : Resource :=
  { uid := 0, spec := "root-test", root := [],
    resource_path := ["0","1","2","3","4"], resource_kwargs := [("a","fizz")] }

/-- resW0 after a +2 shift: root "/0/1", resource_path "2/3/4". -/
def resWa : Resource :=
  { resW0 with root := ["0","1"], resource_path := ["2","3","4"] }

/-- resW0 after a +1 shift (equally, resWa after a -1 shift): root "/0",
resource_path "1/2/3/4". -/
def resWb : Resource :=
  { resW0 with root := ["0"], resource_path := ["1","2","3","4"] }

/-- Ledger entry of the +2 shift on resW0. -/
def entWa : HistoryEntry :=
  { resource_uid := 0, time := 1, cmd := "shift_root",
    cmd_kwargs := CmdKwargs.shiftKw 2, old := resW0, new := resWa }

/-- Store after the +2 shift on resW0 in fsW0. -/
def fsWa : FS :=
  { fsW0 with resources := [resWa], history := [entWa], clock := 1 }

/-- Ledger entry of the -1 shift on resWa. -/
def entWb : HistoryEntry :=
  { resource_uid := 0, time := 2, cmd := "shift_root",
    cmd_kwargs := CmdKwargs.shiftKw (-1), old := resWa, new := resWb }

/-- Store after the +2 shift and then the -1 shift. -/
def fsWb : FS :=
  { fsW0 with resources := [resWb], history := [entWa, entWb], clock := 2 }

/-- Store fsW0 right after inserting resW0. -/
def fsW1 : FS :=
  { fsW0 with resources := [resW0], nextUid := 1 }

/-- Ledger entry of the first +1 shift in the two-shift history run. -/
def entH1 : HistoryEntry :=
  { resource_uid := 0, time := 1, cmd := "shift_root",
    cmd_kwargs := CmdKwargs.shiftKw 1, old := resW0, new := resWb }

/-- Ledger entry of the second +1 shift in the two-shift history run. -/
def entH2 : HistoryEntry :=
  { resource_uid := 0, time := 2, cmd := "shift_root",
    cmd_kwargs := CmdKwargs.shiftKw 1, old := resWb, new := resWa }

/-- Store after inserting resW0 and applying two +1 shifts. -/
def fsH : FS :=
  { fsW0 with
    resources := [resWa], history := [entH1, entH2],
    clock := 2, nextUid := 1 }

/-- The out-of-range scenario resource: root "/c", resource_path "a/b". -/
def resOver : Resource :=
  { uid := 0, spec := "root-test", root := ["c"],
    resource_path := ["a","b"], resource_kwargs := [("a","fizz")] }

/-- Resource of the concrete move scenario: root "/tmp", resource_path
"2016". -/
def resM : Resource :=
  { uid := 0, spec := "npy_series", root := ["tmp"],
    resource_path := ["2016"], resource_kwargs := [("fmt","cub")] }

/-- A datum bound to resM. -/
def datM : Datum :=
  { datum_id := "d0", resource_uid := 0, datum_kwargs := [("point_number","0")] }

/-- Store of the concrete move scenario: resM current, one datum, two files
under the source tree /tmp/2016. -/
def fsM : FS :=
  { resources := [resM], datums := [datM], history := [],
    files := [FileRec.mk ["tmp","2016","f0"] 10, FileRec.mk ["tmp","2016","f1"] 11],
    clock := 0, nextUid := 1 }

/-- Handler registry of the move scenario: the npy_series capability decodes
the file f0 inside the resource directory. -/
def regM : String → Option (KV → KV → List String) :=
  fun s => if s = "npy_series" then some (fun _ _ => ["f0"]) else none

/-- Resource of the move counterexample: root "/a", empty resource_path. -/
def resX : Resource :=
  { uid := 0, spec := "s", root := ["a"], resource_path := [], resource_kwargs := [] }

/-- Store of the move counterexample: a file under the source tree whose
destination path coincides with another source file's path. -/
def fsX : FS :=
  { resources := [resX], datums := [], history := [],
    files := [FileRec.mk ["a","x"] 0, FileRec.mk ["a","b","x"] 1],
    clock := 0, nextUid := 1 }

/-- An empty writer world: nothing on disk, nothing registered. -/
def wwEmpty : WriterWorld :=
  { files := [], resources := [], nuggets := [], seed := 0 }

/-- A writer world whose disk already holds a file at /tmp/f.npy. -/
def wwOcc : WriterWorld :=
  { files := [("/tmp/f.npy", 7)], resources := [], nuggets := [], seed := 0 }

/-- A fresh writer aimed at /tmp/f.npy. -/
def wrFresh : NpyWriter :=
  { fpath := "/tmp/f.npy", f_custom := [], writable := true }

/-- The writer wrFresh after its one successful write. -/
def wrSpent : NpyWriter :=
  { fpath := "/tmp/f.npy", f_custom := [], writable := false }

/-- The world after wrFresh saved the value 5 and registered it. -/
def wwAfter : WriterWorld :=
  { files := [("/tmp/f.npy", 5)], resources := [("npy", "/tmp/f.npy", [])],
    nuggets := ["uuid-0"], seed := 1 }

/-- A successful shiftSplit with positive delta took that many leading
segments of the relative path. -/
theorem shiftSplit_ok_pos {root rpath a b : List String} {d : Int} (hd : 0 < d)
    (h : shiftSplit root rpath d = Except.ok (a, b)) :
    d.toNat ≤ rpath.length ∧ a = root ++ rpath.take d.toNat ∧ b = rpath.drop d.toNat := by
  unfold shiftSplit at h
  rw [if_pos hd] at h
  by_cases hn : d.toNat ≤ rpath.length
  · rw [if_pos hn] at h
    simp only [Except.ok.injEq, Prod.mk.injEq] at h
    exact ⟨hn, h.1.symm, h.2.symm⟩
  · rw [if_neg hn] at h
    exact absurd h (by simp)

/-- A successful shiftSplit with non-positive delta took that many trailing
segments of the root. -/
theorem shiftSplit_ok_neg {root rpath a b : List String} {d : Int} (hd : ¬ 0 < d)
    (h : shiftSplit root rpath d = Except.ok (a, b)) :
    (-d).toNat ≤ root.length ∧ a = root.take (root.length - (-d).toNat) ∧
      b = root.drop (root.length - (-d).toNat) ++ rpath := by
  unfold shiftSplit at h
  rw [if_neg hd] at h
  by_cases hn : (-d).toNat ≤ root.length
  · rw [if_pos hn] at h
    simp only [Except.ok.injEq, Prod.mk.injEq] at h
    exact ⟨hn, h.1.symm, h.2.symm⟩
  · rw [if_neg hn] at h
    exact absurd h (by simp)

/-- A successful shiftSplit never changes the joined absolute location. -/
theorem shiftSplit_join {root rpath a b : List String} {d : Int}
    (h : shiftSplit root rpath d = Except.ok (a, b)) : a ++ b = root ++ rpath := by
  by_cases hd : 0 < d
  · obtain ⟨hn, ha, hb⟩ := shiftSplit_ok_pos hd h
    subst ha; subst hb
    rw [List.append_assoc, List.take_append_drop]
  · obtain ⟨hn, ha, hb⟩ := shiftSplit_ok_neg hd h
    subst ha; subst hb
    rw [← List.append_assoc, List.take_append_drop]

/-- Characterization of a successful shift_root: the delta was nonzero, the
split came from shiftSplit, and the returned record, ledger entry and store
have exactly the shapes the definition builds. -/
theorem shift_root_ok {fs : FS} {r : Resource} {d : Int} {fs' : FS} {r' : Resource}
    {e : HistoryEntry} (h : shift_root fs r d = Except.ok (fs', r', e)) :
    d ≠ 0 ∧
    ∃ a b, shiftSplit r.root r.resource_path d = Except.ok (a, b) ∧
      r' = { r with root := a, resource_path := b } ∧
      e = { resource_uid := r.uid, time := fs.clock + 1, cmd := "shift_root",
            cmd_kwargs := CmdKwargs.shiftKw d, old := r, new := r' } ∧
      fs' = { fs with
              resources := r' :: fs.resources.filter (fun x => decide (x.uid ≠ r.uid)),
              history := fs.history ++ [e], clock := fs.clock + 1 } := by
  unfold shift_root at h
  by_cases hd : d = 0
  · rw [if_pos hd] at h
    exact absurd h (by simp)
  · rw [if_neg hd] at h
    cases hs : shiftSplit r.root r.resource_path d with
    | error err =>
      rw [hs] at h
      exact absurd h (by simp)
    | ok p =>
      obtain ⟨a, b⟩ := p
      rw [hs] at h
      simp only [Except.ok.injEq, Prod.mk.injEq] at h
      obtain ⟨hfs, hr, he⟩ := h
      refine ⟨hd, a, b, rfl, hr.symm, ?_, ?_⟩
      · rw [← he, ← hr]
      · rw [← hfs, ← he, ← hr]

/-- C1: a root shift never changes the absolute location: the join of the
shifted resource's root and resource_path equals the join of the input
resource's root and resource_path, for every resource and every delta that
shift_root accepts. -/
theorem shift_root_join_invariant (fs : FS) (r : Resource) (d : Int) (fs' : FS)
    (r' : Resource) (e : HistoryEntry)
    (h : shift_root fs r d = Except.ok (fs', r', e)) :
    joinPath r'.root r'.resource_path = joinPath r.root r.resource_path := by
  obtain ⟨hd, a, b, hs, hr, he, hfs⟩ := shift_root_ok h
  subst hr
  simpa [joinPath] using shiftSplit_join hs

/-- Witness for C1: the +2 shift of the concrete scenario preserves the
joined absolute location. -/
theorem shift_root_join_invariant_witness :
    shift_root fsW0 resW0 2 = Except.ok (fsWa, resWa, entWa) ∧
    joinPath resWa.root resWa.resource_path = joinPath resW0.root resW0.resource_path :=
  ⟨by decide, shift_root_join_invariant fsW0 resW0 2 fsWa resWa entWa (by decide)⟩

/-- C2: shifting past the movable segments on the requested side (more than
the resource_path's segment count for a positive delta, more than the root's
segment count for a negative delta) fails with OutOfRangeShift; since the
failing call returns no store at all, the resource record and the history
ledger are untouched, as the failing one-mutation run confirms. -/
theorem shift_root_out_of_range :
    (∀ (fs : FS) (r : Resource) (d : Int), 0 < d → r.resource_path.length < d.toNat →
      shift_root fs r d = Except.error FsError.OutOfRangeShift ∧
      applyMuts fs r [Mutation.shift d] = Except.error FsError.OutOfRangeShift) ∧
    (∀ (fs : FS) (r : Resource) (d : Int), d < 0 → r.root.length < (-d).toNat →
      shift_root fs r d = Except.error FsError.OutOfRangeShift ∧
      applyMuts fs r [Mutation.shift d] = Except.error FsError.OutOfRangeShift) := by
  constructor
  · intro fs r d hd hlen
    have hsplit : shiftSplit r.root r.resource_path d = Except.error FsError.OutOfRangeShift := by
      unfold shiftSplit
      rw [if_pos hd, if_neg (by omega)]
    have hsr : shift_root fs r d = Except.error FsError.OutOfRangeShift := by
      unfold shift_root
      rw [if_neg (by omega : ¬ d = 0), hsplit]
    exact ⟨hsr, by simp [applyMuts, applyMut, hsr]⟩
  · intro fs r d hd hlen
    have hsplit : shiftSplit r.root r.resource_path d = Except.error FsError.OutOfRangeShift := by
      unfold shiftSplit
      rw [if_neg (by omega : ¬ (0:Int) < d), if_neg (by omega)]
    have hsr : shift_root fs r d = Except.error FsError.OutOfRangeShift := by
      unfold shift_root
      rw [if_neg (by omega : ¬ d = 0), hsplit]
    exact ⟨hsr, by simp [applyMuts, applyMut, hsr]⟩

/-- Witness for C2: the spec's concrete scenario, root "/c" and
resource_path "a/b" shifted by +5 and by -5, both rejected. -/
theorem shift_root_out_of_range_witness :
    shift_root fsW0 resOver 5 = Except.error FsError.OutOfRangeShift ∧
    shift_root fsW0 resOver (-5) = Except.error FsError.OutOfRangeShift :=
  ⟨(shift_root_out_of_range.1 fsW0 resOver 5 (by decide) (by decide)).1,
   (shift_root_out_of_range.2 fsW0 resOver (-5) (by decide) (by decide)).1⟩

/-- C5: a successful shift moves exactly the requested number of segments
across the boundary -- for a positive delta the leading segments of
resource_path move to the end of root, for a negative delta the trailing
segments of root move to the front of resource_path -- and in particular the
concrete scenario: root "/" with resource_path "0/1/2/3/4" shifted by +2
gives root "/0/1" and resource_path "2/3/4", and shifting that by -1 gives
root "/0" and resource_path "1/2/3/4". -/
theorem shift_root_segment_transfer :
    (∀ (fs : FS) (r : Resource) (d : Int) (fs' : FS) (r' : Resource) (e : HistoryEntry),
        0 < d → shift_root fs r d = Except.ok (fs', r', e) →
        r'.root = r.root ++ r.resource_path.take d.toNat ∧
        r'.resource_path = r.resource_path.drop d.toNat) ∧
    (∀ (fs : FS) (r : Resource) (d : Int) (fs' : FS) (r' : Resource) (e : HistoryEntry),
        d < 0 → shift_root fs r d = Except.ok (fs', r', e) →
        r'.root = r.root.take (r.root.length - (-d).toNat) ∧
        r'.resource_path = r.root.drop (r.root.length - (-d).toNat) ++ r.resource_path) ∧
    shift_root fsW0 resW0 2 = Except.ok (fsWa, resWa, entWa) ∧
    resWa.root = ["0","1"] ∧ resWa.resource_path = ["2","3","4"] ∧
    shift_root fsWa resWa (-1) = Except.ok (fsWb, resWb, entWb) ∧
    resWb.root = ["0"] ∧ resWb.resource_path = ["1","2","3","4"] ∧
    renderAbs resW0.root = "/" ∧ renderRel resW0.resource_path = "0/1/2/3/4" ∧
    renderAbs resWa.root = "/0/1" ∧ renderAbs resWb.root = "/0" := by
  refine ⟨?_, ?_, by decide, by decide, by decide, by decide, by decide, by decide,
          by decide, by decide, by decide, by decide⟩
  · intro fs r d fs' r' e hd h
    obtain ⟨hd0, a, b, hs, hr, he, hfs⟩ := shift_root_ok h
    obtain ⟨hn, ha, hb⟩ := shiftSplit_ok_pos hd hs
    subst hr
    exact ⟨ha, hb⟩
  · intro fs r d fs' r' e hd h
    obtain ⟨hd0, a, b, hs, hr, he, hfs⟩ := shift_root_ok h
    obtain ⟨hn, ha, hb⟩ := shiftSplit_ok_neg (by omega) hs
    subst hr
    exact ⟨ha, hb⟩

/-- Witness for C5: the general positive-shift clause evaluated on the
concrete +2 shift. -/
theorem shift_root_segment_transfer_witness :
    (0:Int) < 2 ∧ shift_root fsW0 resW0 2 = Except.ok (fsWa, resWa, entWa) ∧
    (resWa.root = resW0.root ++ resW0.resource_path.take (2:Int).toNat ∧
     resWa.resource_path = resW0.resource_path.drop (2:Int).toNat) :=
  ⟨by decide, by decide,
   shift_root_segment_transfer.1 fsW0 resW0 2 fsWa resWa entWa (by decide) (by decide)⟩

/-- C6: every successful shift_root returns a history entry whose old
snapshot is the input resource, whose new snapshot is the returned resource,
whose cmd is "shift_root" and whose cmd_kwargs records the shift amount. -/
theorem shift_root_history_entry_fields (fs : FS) (r : Resource) (d : Int) (fs' : FS)
    (r' : Resource) (e : HistoryEntry)
    (h : shift_root fs r d = Except.ok (fs', r', e)) :
    e.old = r ∧ e.new = r' ∧ e.cmd = "shift_root" ∧ e.cmd_kwargs = CmdKwargs.shiftKw d := by
  obtain ⟨hd, a, b, hs, hr, he, hfs⟩ := shift_root_ok h
  subst he
  exact ⟨rfl, rfl, rfl, rfl⟩

/-- Witness for C6: the ledger entry of the concrete +2 shift. -/
theorem shift_root_history_entry_fields_witness :
    shift_root fsW0 resW0 2 = Except.ok (fsWa, resWa, entWa) ∧
    (entWa.old = resW0 ∧ entWa.new = resWa ∧ entWa.cmd = "shift_root" ∧
     entWa.cmd_kwargs = CmdKwargs.shiftKw 2) :=
  ⟨by decide, shift_root_history_entry_fields fsW0 resW0 2 fsWa resWa entWa (by decide)⟩

/-- C7: a successful shift_root changes only the root/resource_path split:
uid, spec and resource_kwargs are unchanged, while both root and
resource_path differ from the input record's. -/
theorem shift_root_frame_condition (fs : FS) (r : Resource) (d : Int) (fs' : FS)
    (r' : Resource) (e : HistoryEntry)
    (h : shift_root fs r d = Except.ok (fs', r', e)) :
    r'.uid = r.uid ∧ r'.spec = r.spec ∧ r'.resource_kwargs = r.resource_kwargs ∧
    r'.root ≠ r.root ∧ r'.resource_path ≠ r.resource_path := by
  obtain ⟨hd, a, b, hs, hr, he, hfs⟩ := shift_root_ok h
  subst hr
  refine ⟨rfl, rfl, rfl, ?_, ?_⟩
  · show a ≠ r.root
    by_cases hdp : 0 < d
    · obtain ⟨hn, ha, hb⟩ := shiftSplit_ok_pos hdp hs
      subst ha
      intro hcon
      have hlen := congrArg List.length hcon
      simp only [List.length_append, List.length_take] at hlen
      omega
    · obtain ⟨hn, ha, hb⟩ := shiftSplit_ok_neg hdp hs
      subst ha
      intro hcon
      have hlen := congrArg List.length hcon
      simp only [List.length_take] at hlen
      omega
  · show b ≠ r.resource_path
    by_cases hdp : 0 < d
    · obtain ⟨hn, ha, hb⟩ := shiftSplit_ok_pos hdp hs
      subst hb
      intro hcon
      have hlen := congrArg List.length hcon
      simp only [List.length_drop] at hlen
      omega
    · obtain ⟨hn, ha, hb⟩ := shiftSplit_ok_neg hdp hs
      subst hb
      intro hcon
      have hlen := congrArg List.length hcon
      simp only [List.length_append, List.length_drop] at hlen
      omega

/-- Witness for C7: the concrete +2 shift leaves uid, spec and
resource_kwargs unchanged and changes both sides of the split. -/
theorem shift_root_frame_condition_witness :
    shift_root fsW0 resW0 2 = Except.ok (fsWa, resWa, entWa) ∧
    (resWa.uid = resW0.uid ∧ resWa.spec = resW0.spec ∧
     resWa.resource_kwargs = resW0.resource_kwargs ∧
     resWa.root ≠ resW0.root ∧ resWa.resource_path ≠ resW0.resource_path) :=
  ⟨by decide, shift_root_frame_condition fsW0 resW0 2 fsWa resWa entWa (by decide)⟩

/-- The last time of a history sequence extended by one entry is that
entry's time. -/
theorem lastTime_snoc {h : List HistoryEntry} {e : HistoryEntry} :
    ∀ {lb : Nat}, lastTime lb (h ++ [e]) = e.time := by
  induction h with
  | nil => intro lb; rfl
  | cons x t ih => intro lb; exact ih

/-- Appending an entry whose time exceeds the last time preserves a strict
time chain. -/
theorem timesChain_snoc {h : List HistoryEntry} {e : HistoryEntry} :
    ∀ {lb : Nat}, timesChain lb h = true → lastTime lb h < e.time →
      timesChain lb (h ++ [e]) = true := by
  induction h with
  | nil =>
    intro lb _ hlt
    simp only [lastTime] at hlt
    simp [timesChain, hlt]
  | cons x t ih =>
    intro lb hch hlt
    simp only [lastTime] at hlt
    simp only [List.cons_append, timesChain, Bool.and_eq_true] at hch ⊢
    exact ⟨hch.1, ih hch.2 hlt⟩

/-- Appending an entry whose old snapshot is the chain's current end extends
an unbroken snapshot chain to the entry's new snapshot. -/
theorem histChain_snoc {rc : Resource} {h : List HistoryEntry} {e : HistoryEntry} :
    ∀ {r0 : Resource}, histChain r0 h rc = true → e.old = rc →
      histChain r0 (h ++ [e]) e.new = true := by
  induction h with
  | nil =>
    intro r0 hch heo
    simp only [histChain, decide_eq_true_eq] at hch
    subst hch
    simp [histChain, heo]
  | cons x t ih =>
    intro r0 hch heo
    simp only [List.cons_append, histChain, Bool.and_eq_true] at hch ⊢
    exact ⟨hch.1, ih hch.2 heo⟩

/-- Filtering a history extended by a matching entry keeps the entry at the
end. -/
theorem filter_hist_snoc {l : List HistoryEntry} {e : HistoryEntry} {uid : Nat}
    (he : e.resource_uid = uid) :
    (l ++ [e]).filter (fun x => decide (x.resource_uid = uid)) =
      l.filter (fun x => decide (x.resource_uid = uid)) ++ [e] := by
  rw [List.filter_append]
  simp [he]

/-- Every successful mutation preserves the resource uid, advances the clock
by one and appends exactly one ledger entry carrying the before and after
snapshots at the new clock time. -/
theorem applyMut_ok {fs : FS} {r : Resource} {m : Mutation} {fs' : FS} {r' : Resource}
    (h : applyMut fs r m = Except.ok (fs', r')) :
    r'.uid = r.uid ∧ fs'.clock = fs.clock + 1 ∧
    ∃ e : HistoryEntry, e.resource_uid = r.uid ∧ e.time = fs.clock + 1 ∧
      e.old = r ∧ e.new = r' ∧ fs'.history = fs.history ++ [e] := by
  cases m with
  | shift d =>
    simp only [applyMut] at h
    cases hs : shift_root fs r d with
    | error err =>
      rw [hs] at h
      exact absurd h (by simp)
    | ok t =>
      obtain ⟨fs1, r1, e1⟩ := t
      rw [hs] at h
      simp only [Except.ok.injEq, Prod.mk.injEq] at h
      obtain ⟨hfs, hr⟩ := h
      subst hfs
      subst hr
      obtain ⟨hd, a, b, hsp, hr1, he1, hfs1⟩ := shift_root_ok hs
      subst hr1
      subst he1
      subst hfs1
      exact ⟨rfl, rfl, ⟨_, rfl, rfl, rfl, rfl, rfl⟩⟩
  | chroot nr rm =>
    simp only [applyMut, change_root] at h
    simp only [Except.ok.injEq, Prod.mk.injEq] at h
    obtain ⟨hfs, hr⟩ := h
    subst hfs
    subst hr
    exact ⟨rfl, rfl, ⟨_, rfl, rfl, rfl, rfl, rfl⟩⟩

/-- Invariant of a successful mutation run: the history of the mutated
resource grows by exactly one entry per mutation, stays a strict time chain
bounded by the clock, and stays an unbroken snapshot chain ending at the
current record. -/
theorem applyMuts_inv (ms : List Mutation) :
    ∀ (fs : FS) (r : Resource) (fs' : FS) (r' : Resource) (r0 : Resource) (lb : Nat),
      applyMuts fs r ms = Except.ok (fs', r') →
      histChain r0 (get_history fs r.uid) r = true →
      timesChain lb (get_history fs r.uid) = true →
      lastTime lb (get_history fs r.uid) ≤ fs.clock →
      r'.uid = r.uid ∧
      (get_history fs' r'.uid).length = (get_history fs r.uid).length + ms.length ∧
      histChain r0 (get_history fs' r'.uid) r' = true ∧
      timesChain lb (get_history fs' r'.uid) = true ∧
      lastTime lb (get_history fs' r'.uid) ≤ fs'.clock := by
  induction ms with
  | nil =>
    intro fs r fs' r' r0 lb h hchain htimes hlast
    unfold applyMuts at h
    simp only [Except.ok.injEq, Prod.mk.injEq] at h
    obtain ⟨hfs, hr⟩ := h
    subst hfs
    subst hr
    exact ⟨rfl, by simp, hchain, htimes, hlast⟩
  | cons m ms ih =>
    intro fs r fs' r' r0 lb h hchain htimes hlast
    unfold applyMuts at h
    cases hm : applyMut fs r m with
    | error err =>
      rw [hm] at h
      exact absurd h (by simp)
    | ok t =>
      obtain ⟨fs1, r1⟩ := t
      rw [hm] at h
      obtain ⟨huid, hclock, e, heu, het, heo, hen, hh⟩ := applyMut_ok hm
      have hgh : get_history fs1 r1.uid = get_history fs r.uid ++ [e] := by
        unfold get_history
        rw [hh, huid]
        exact filter_hist_snoc heu
      have hchain1 : histChain r0 (get_history fs1 r1.uid) r1 = true := by
        rw [hgh, ← hen]
        exact histChain_snoc hchain heo
      have htimes1 : timesChain lb (get_history fs1 r1.uid) = true := by
        rw [hgh]
        exact timesChain_snoc htimes (by omega)
      have hlast1 : lastTime lb (get_history fs1 r1.uid) ≤ fs1.clock := by
        rw [hgh, lastTime_snoc]
        omega
      obtain ⟨huid', hlen, hch, hts, hlt⟩ := ih fs1 r1 fs' r' r0 lb h hchain1 htimes1 hlast1
      refine ⟨by rw [huid', huid], ?_, hch, hts, hlt⟩
      rw [hlen, hgh]
      simp only [List.length_append, List.length_cons, List.length_nil]
      omega

/-- C3: after a resource is inserted into a store with no prior history for
its uid and N mutations all succeed on it in sequence, its history has
exactly N entries, their times are strictly increasing, the first entry's
old snapshot is the record at insertion, consecutive entries agree (each new
snapshot is the next old snapshot) and the last new snapshot is the final
record. -/
theorem history_chain_integrity (fs0 fs1 : FS) (r0 : Resource) (spec : String)
    (rpath root : List String) (kw : KV) (ms : List Mutation) (fs' : FS) (r' : Resource)
    (hins : insert_resource fs0 spec rpath kw root = (fs1, r0))
    (hfresh : get_history fs0 r0.uid = [])
    (hrun : applyMuts fs1 r0 ms = Except.ok (fs', r')) :
    (get_history fs' r0.uid).length = ms.length ∧
    timesChain 0 (get_history fs' r0.uid) = true ∧
    histChain r0 (get_history fs' r0.uid) r' = true := by
  unfold insert_resource at hins
  simp only [Prod.mk.injEq] at hins
  obtain ⟨hfs1, hr0⟩ := hins
  have hh1 : get_history fs1 r0.uid = [] := by
    unfold get_history at hfresh ⊢
    rw [← hfs1]
    exact hfresh
  obtain ⟨huid, hlen, hch, hts, hlt⟩ :=
    applyMuts_inv ms fs1 r0 fs' r' r0 0 hrun
      (by rw [hh1]; simp [histChain])
      (by rw [hh1]; rfl)
      (by rw [hh1]; exact Nat.zero_le _)
  rw [huid] at hlen hch hts
  rw [hh1] at hlen
  simp only [List.length_nil, Nat.zero_add] at hlen
  exact ⟨hlen, hts, hch⟩

/-- Witness for C3: inserting the concrete resource and applying two +1
shifts yields a two-entry history forming a strict time chain and an
unbroken snapshot chain. -/
theorem history_chain_integrity_witness :
    (get_history fsH resW0.uid).length = ([Mutation.shift 1, Mutation.shift 1] : List Mutation).length ∧
    timesChain 0 (get_history fsH resW0.uid) = true ∧
    histChain resW0 (get_history fsH resW0.uid) resWa = true :=
  history_chain_integrity fsW0 fsW1 resW0 ("root-test") ["0","1","2","3","4"] []
    [("a","fizz")] [Mutation.shift 1, Mutation.shift 1] fsH resWa
    (by decide) (by decide) (by decide)

/-- A path exists on the filesystem exactly when some file record carries
it. -/
theorem fileExists_eq_true_iff {files : List FileRec} {p : List String} :
    fileExists files p = true ↔ ∃ f ∈ files, f.path = p := by
  simp [fileExists, List.any_eq_true]

/-- A path is absent from the filesystem exactly when no file record carries
it. -/
theorem fileExists_eq_false_iff {files : List FileRec} {p : List String} :
    fileExists files p = false ↔ ∀ f ∈ files, f.path ≠ p := by
  simp [fileExists, List.any_eq_false]

/-- Membership in the enumerated source files. -/
theorem mem_movedUnder {files : List FileRec} {src : List String} {f : FileRec} :
    f ∈ movedUnder files src ↔ f ∈ files ∧ src <+: f.path := by
  simp [movedUnder, List.mem_filter]

/-- Every copy lies under the destination tree. -/
theorem copiesFor_dst_pre {files : List FileRec} {src dst : List String}
    {c : FileRec} (hc : c ∈ copiesFor files src dst) : dst <+: c.path := by
  simp only [copiesFor, List.mem_map] at hc
  obtain ⟨f, hf, rfl⟩ := hc
  exact ⟨f.path.drop src.length, rfl⟩

/-- Each enumerated source file contributes its copy. -/
theorem copy_mem_copiesFor {files : List FileRec} {src dst : List String}
    {f : FileRec} (hf : f ∈ files) (hpre : src <+: f.path) :
    FileRec.mk (destOf src dst f.path) f.content ∈ copiesFor files src dst := by
  simp only [copiesFor, List.mem_map]
  exact ⟨f, mem_movedUnder.mpr ⟨hf, hpre⟩, rfl⟩

/-- Unfolded form of a move that keeps the originals. -/
theorem move_tree_false_eq (files : List FileRec) (src dst : List String) :
    move_tree files src dst false =
      files.filter
        (fun f => decide (¬ f.path ∈ (copiesFor files src dst).map FileRec.path)) ++
      copiesFor files src dst := rfl

/-- Unfolded form of a move that removes the originals. -/
theorem move_tree_true_eq (files : List FileRec) (src dst : List String) :
    move_tree files src dst true =
      (files.filter
        (fun f => decide (¬ f.path ∈ (copiesFor files src dst).map FileRec.path)) ++
       copiesFor files src dst).filter
        (fun f => decide (¬ f.path ∈ (movedUnder files src).map FileRec.path)) := rfl

/-- C8: after a change_root that does not remove the origin, every file that
was under the source tree still exists at its original path and its copy
exists at the same relative offset under the destination tree -- the source
files are left in place. -/
theorem change_root_keep_origin (fs : FS) (r : Resource) (newRoot : List String)
    (f : FileRec) (hf : f ∈ fs.files)
    (hpre : (joinPath r.root r.resource_path) <+: f.path) :
    fileExists (change_root fs r newRoot false).1.files f.path = true ∧
    fileExists (change_root fs r newRoot false).1.files
      (destOf (joinPath r.root r.resource_path) (joinPath newRoot r.resource_path)
        f.path) = true := by
  have hfiles : (change_root fs r newRoot false).1.files =
      move_tree fs.files (joinPath r.root r.resource_path)
        (joinPath newRoot r.resource_path) false := rfl
  rw [hfiles, move_tree_false_eq]
  constructor
  · rw [fileExists_eq_true_iff]
    by_cases hq : f.path ∈
        (copiesFor fs.files (joinPath r.root r.resource_path)
          (joinPath newRoot r.resource_path)).map FileRec.path
    · simp only [List.mem_map] at hq
      obtain ⟨c, hc, hcp⟩ := hq
      exact ⟨c, List.mem_append.mpr (Or.inr hc), hcp⟩
    · refine ⟨f, List.mem_append.mpr (Or.inl ?_), rfl⟩
      exact List.mem_filter.mpr ⟨hf, by simpa using hq⟩
  · rw [fileExists_eq_true_iff]
    exact ⟨FileRec.mk
        (destOf (joinPath r.root r.resource_path)
          (joinPath newRoot r.resource_path) f.path) f.content,
      List.mem_append.mpr (Or.inr (copy_mem_copiesFor hf hpre)), rfl⟩

/-- Witness for C8: the concrete move scenario with remove_origin false
keeps the file /tmp/2016/f0 and adds its copy under /tmp/archive/2016. -/
theorem change_root_keep_origin_witness :
    FileRec.mk ["tmp","2016","f0"] 10 ∈ fsM.files ∧
    fileExists (change_root fsM resM ["tmp","archive"] false).1.files
      ["tmp","2016","f0"] = true ∧
    fileExists (change_root fsM resM ["tmp","archive"] false).1.files
      (destOf (joinPath resM.root resM.resource_path)
        (joinPath ["tmp","archive"] resM.resource_path) ["tmp","2016","f0"]) = true :=
  ⟨by decide,
   (change_root_keep_origin fsM resM ["tmp","archive"]
      (FileRec.mk ["tmp","2016","f0"] 10) (by decide) (by decide)).1,
   (change_root_keep_origin fsM resM ["tmp","archive"]
      (FileRec.mk ["tmp","2016","f0"] 10) (by decide) (by decide)).2⟩

/-- find? only depends on the predicate's values on the list's members. -/
theorem find?_congr {α : Type} {p q : α → Bool} :
    ∀ {l : List α}, (∀ a ∈ l, p a = q a) → l.find? p = l.find? q := by
  intro l
  induction l with
  | nil => intro _; rfl
  | cons x t ih =>
    intro hpq
    simp only [List.find?, hpq x (List.mem_cons_self x t)]
    cases hq : q x with
    | false => exact ih (fun a ha => hpq a (List.mem_cons_of_mem x ha))
    | true => rfl

/-- Finding a copy by path is finding the unique source file it came from. -/
theorem find?_copies {moved : List FileRec} {src dst q : List String} :
    (moved.map (fun f => FileRec.mk (destOf src dst f.path) f.content)).find?
        (fun c => decide (c.path = q)) =
      (moved.find? (fun f => decide (destOf src dst f.path = q))).map
        (fun f => FileRec.mk (destOf src dst f.path) f.content) := by
  induction moved with
  | nil => rfl
  | cons x t ih =>
    simp only [List.map_cons, List.find?]
    cases hx : decide (destOf src dst x.path = q) with
    | false => simpa [hx] using ih
    | true => simp [hx]

/-- Core lemma of a removing move into a tree that held no files: reading
any path under the destination tree afterwards reads what the corresponding
path under the source tree held before. -/
theorem move_tree_readFile {files : List FileRec} {src dst : List String}
    (hdisj : ∀ f ∈ files, ¬ (dst <+: f.path)) (rel : List String) :
    readFile (move_tree files src dst true) (dst ++ rel) =
      readFile files (src ++ rel) := by
  have hcopies_keep :
      (copiesFor files src dst).filter
        (fun f => decide (¬ f.path ∈ (movedUnder files src).map FileRec.path)) =
        copiesFor files src dst := by
    rw [List.filter_eq_self]
    intro c hc
    simp only [decide_eq_true_eq, List.mem_map]
    rintro ⟨m, hm, hmp⟩
    exact hdisj m (mem_movedUnder.mp hm).1 (hmp.symm ▸ copiesFor_dst_pre hc)
  have hmove : move_tree files src dst true =
      (files.filter
        (fun f => decide (¬ f.path ∈ (copiesFor files src dst).map FileRec.path))).filter
        (fun f => decide (¬ f.path ∈ (movedUnder files src).map FileRec.path)) ++
      copiesFor files src dst := by
    rw [move_tree_true_eq, List.filter_append, hcopies_keep]
  rw [hmove]
  unfold readFile
  rw [List.find?_append]
  have hAnone :
      ((files.filter
        (fun f => decide (¬ f.path ∈ (copiesFor files src dst).map FileRec.path))).filter
        (fun f => decide (¬ f.path ∈ (movedUnder files src).map FileRec.path))).find?
          (fun f => decide (f.path = dst ++ rel)) = none := by
    rw [List.find?_eq_none]
    intro a ha hpa
    have haf : a ∈ files := (List.mem_filter.mp (List.mem_filter.mp ha).1).1
    simp only [decide_eq_true_eq] at hpa
    exact hdisj a haf (hpa.symm ▸ ⟨rel, rfl⟩)
  rw [hAnone]
  simp only [Option.none_or]
  unfold copiesFor
  rw [find?_copies]
  have hcong : ∀ m ∈ movedUnder files src,
      decide (destOf src dst m.path = dst ++ rel) = decide (m.path = src ++ rel) := by
    intro m hm
    obtain ⟨t, ht⟩ := (mem_movedUnder.mp hm).2
    rw [decide_eq_decide, ← ht]
    unfold destOf
    rw [List.drop_left, List.append_right_inj, List.append_right_inj]
  rw [find?_congr hcong]
  have hcong2 : ∀ a ∈ files,
      (fun f => decide (decide (src <+: f.path) = true ∧
        decide (f.path = src ++ rel) = true)) a =
      (fun f => decide (f.path = src ++ rel)) a := by
    intro a _
    simp only [decide_eq_decide, decide_eq_true_eq]
    constructor
    · rintro ⟨_, h2⟩
      exact h2
    · intro h2
      exact ⟨⟨rel, h2.symm⟩, h2⟩
  unfold movedUnder
  rw [List.find?_filter, find?_congr hcong2, Option.map_map]
  rfl

/-- After a removing move into a tree that held no files, the copy of every
enumerated source file exists at its destination path. -/
theorem move_tree_dest_exists {files : List FileRec} {src dst : List String}
    {f : FileRec} (hf : f ∈ files) (hpre : src <+: f.path)
    (hdisj : ∀ g ∈ files, ¬ (dst <+: g.path)) :
    fileExists (move_tree files src dst true) (destOf src dst f.path) = true := by
  rw [move_tree_true_eq, fileExists_eq_true_iff]
  refine ⟨FileRec.mk (destOf src dst f.path) f.content, ?_, rfl⟩
  have hc := @copy_mem_copiesFor files src dst f hf hpre
  refine List.mem_filter.mpr ⟨List.mem_append.mpr (Or.inr hc), ?_⟩
  simp only [decide_eq_true_eq, List.mem_map]
  rintro ⟨m, hm, hmp⟩
  exact hdisj m (mem_movedUnder.mp hm).1 (hmp.symm ▸ copiesFor_dst_pre hc)

/-- After a removing move, no file remains at the original path of any
enumerated source file. -/
theorem move_tree_origin_gone {files : List FileRec} {src dst : List String}
    {f : FileRec} (hf : f ∈ files) (hpre : src <+: f.path) :
    fileExists (move_tree files src dst true) f.path = false := by
  rw [move_tree_true_eq, fileExists_eq_false_iff]
  intro g hg hgp
  have hgkeep := (List.mem_filter.mp hg).2
  simp only [decide_eq_true_eq, List.mem_map] at hgkeep
  exact hgkeep ⟨f, mem_movedUnder.mpr ⟨hf, hpre⟩, hgp.symm⟩

/-- Retrieval reduces to reading the handler-chosen file under the found
resource's location. -/
theorem retrieve_eq_of_found {reg : String → Option (KV → KV → List String)} {fs : FS}
    {did : String} {d : Datum} {res : Resource} {h : KV → KV → List String}
    (hfind : fs.datums.find? (fun x => decide (x.datum_id = did)) = some d)
    (hres : fs.resources.find? (fun x => decide (x.uid = d.resource_uid)) = some res)
    (hreg : reg res.spec = some h) :
    retrieve reg fs did =
      Except.ok (readFile fs.files
        (joinPath res.root res.resource_path ++ h res.resource_kwargs d.datum_kwargs)) := by
  unfold retrieve
  simp only [hfind, hres, hreg]

/-- Retrieval fails with UnregisteredSpec when the found resource's type tag
has no handler. -/
theorem retrieve_unregistered {reg : String → Option (KV → KV → List String)} {fs : FS}
    {did : String} {d : Datum} {res : Resource}
    (hfind : fs.datums.find? (fun x => decide (x.datum_id = did)) = some d)
    (hres : fs.resources.find? (fun x => decide (x.uid = d.resource_uid)) = some res)
    (hreg : reg res.spec = none) :
    retrieve reg fs did = Except.error FsError.UnregisteredSpec := by
  unfold retrieve
  simp only [hfind, hres, hreg]

/-- C4 counterexample: the claim fails as stated when a source file's
destination path coincides with another source file's path.  In fsX the tree
/a holds files /a/x and /a/b/x; moving resX (root "/a", empty resource_path)
to new root "/a/b" with remove_origin copies /a/x onto /a/b/x, then deletes
the original paths /a/x and /a/b/x -- so the file that was at /a/x does not
exist at its destination /a/b/x afterwards, against the claim. -/
theorem change_root_move_claim_counterexample :
    (joinPath resX.root resX.resource_path) <+: ["a","x"] ∧
    FileRec.mk ["a","x"] 0 ∈ fsX.files ∧
    fileExists (change_root fsX resX ["a","b"] true).1.files
      (destOf (joinPath resX.root resX.resource_path)
        (joinPath ["a","b"] resX.resource_path) ["a","x"]) = false := by
  decide

/-- C4 amended: provided no file of the store lies under the destination
tree join(new_root, r.resource_path), a change_root with remove_origin moves
every file under the source tree to the same relative offset under the
destination tree and removes it from its original path, and retrieving any
datum that resolves to r returns the same content as before the move. -/
theorem change_root_move_complete_disjoint (fs : FS) (r : Resource)
    (newRoot : List String) (reg : String → Option (KV → KV → List String))
    (hcur : fs.resources.find? (fun x => decide (x.uid = r.uid)) = some r)
    (hdisj : ∀ f ∈ fs.files, ¬ ((joinPath newRoot r.resource_path) <+: f.path)) :
    (∀ f ∈ fs.files, (joinPath r.root r.resource_path) <+: f.path →
        fileExists (change_root fs r newRoot true).1.files
          (destOf (joinPath r.root r.resource_path)
            (joinPath newRoot r.resource_path) f.path) = true ∧
        fileExists (change_root fs r newRoot true).1.files f.path = false) ∧
    (∀ d : Datum,
        fs.datums.find? (fun x => decide (x.datum_id = d.datum_id)) = some d →
        d.resource_uid = r.uid →
        retrieve reg (change_root fs r newRoot true).1 d.datum_id =
          retrieve reg fs d.datum_id) := by
  have hfiles : (change_root fs r newRoot true).1.files =
      move_tree fs.files (joinPath r.root r.resource_path)
        (joinPath newRoot r.resource_path) true := rfl
  constructor
  · intro f hf hpre
    rw [hfiles]
    exact ⟨move_tree_dest_exists hf hpre hdisj, move_tree_origin_gone hf hpre⟩
  · intro d hfind huid
    have hres0 : fs.resources.find? (fun x => decide (x.uid = d.resource_uid)) = some r := by
      rw [huid]
      exact hcur
    have hfind1 : (change_root fs r newRoot true).1.datums.find?
        (fun x => decide (x.datum_id = d.datum_id)) = some d := hfind
    have hres1 : (change_root fs r newRoot true).1.resources.find?
        (fun x => decide (x.uid = d.resource_uid)) = some ({ r with root := newRoot }) := by
      show (({ r with root := newRoot } : Resource) ::
          fs.resources.filter (fun x => decide (x.uid ≠ r.uid))).find?
          (fun x => decide (x.uid = d.resource_uid)) = _
      exact List.find?_cons_of_pos _ (by simp [huid])
    cases hreg : reg r.spec with
    | none =>
      rw [retrieve_unregistered hfind1 hres1 hreg, retrieve_unregistered hfind hres0 hreg]
    | some h =>
      rw [retrieve_eq_of_found hfind1 hres1 hreg, retrieve_eq_of_found hfind hres0 hreg]
      congr 1
      exact move_tree_readFile hdisj (h r.resource_kwargs d.datum_kwargs)

/-- Witness for the amended C4: the concrete move scenario, whose
destination tree /tmp/archive/2016 holds no file beforehand. -/
theorem change_root_move_complete_disjoint_witness :
    fsM.resources.find? (fun x => decide (x.uid = resM.uid)) = some resM ∧
    (∀ f ∈ fsM.files, ¬ ((joinPath ["tmp","archive"] resM.resource_path) <+: f.path)) ∧
    ((∀ f ∈ fsM.files, (joinPath resM.root resM.resource_path) <+: f.path →
        fileExists (change_root fsM resM ["tmp","archive"] true).1.files
          (destOf (joinPath resM.root resM.resource_path)
            (joinPath ["tmp","archive"] resM.resource_path) f.path) = true ∧
        fileExists (change_root fsM resM ["tmp","archive"] true).1.files f.path = false) ∧
     (∀ d : Datum,
        fsM.datums.find? (fun x => decide (x.datum_id = d.datum_id)) = some d →
        d.resource_uid = resM.uid →
        retrieve regM (change_root fsM resM ["tmp","archive"] true).1 d.datum_id =
          retrieve regM fsM d.datum_id)) :=
  ⟨by decide, by decide,
   change_root_move_complete_disjoint fsM resM ["tmp","archive"] regM
     (by decide) (by decide)⟩

/-- C9: the NpyWriter never overwrites an occupied path.  Constructing a
writer at an existing file raises IOError, and add_data raises some error
whenever a file exists at the writer's path at the time of the write (the
error return carries no new world, so nothing is written). -/
theorem npy_writer_no_overwrite :
    (∀ (w : WriterWorld) (fpath : String) (custom : KV),
        wExists w fpath = true →
        NpyWriter.init? w fpath custom = Except.error WriterErr.ioError) ∧
    (∀ (wr : NpyWriter) (w : WriterWorld) (data : Nat) (uid : Option String)
        (custom : KV),
        wExists w wr.fpath = true →
        ∃ e, add_data wr w data uid custom = Except.error e) := by
  constructor
  · intro w fpath custom hex
    unfold NpyWriter.init?
    rw [if_pos hex]
  · intro wr w data uid custom hex
    unfold add_data
    by_cases hw : wr.writable = false
    · rw [if_pos hw]
      exact ⟨_, rfl⟩
    · rw [if_neg hw]
      by_cases hc : custom ≠ []
      · rw [if_pos hc]
        exact ⟨_, rfl⟩
      · rw [if_neg hc, if_pos hex]
        exact ⟨_, rfl⟩

/-- Witness for C9: constructing over the occupied path /tmp/f.npy fails
with IOError, and add_data against the occupied world fails. -/
theorem npy_writer_no_overwrite_witness :
    wExists wwOcc ("/tmp/f.npy") = true ∧
    NpyWriter.init? wwOcc ("/tmp/f.npy") [] = Except.error WriterErr.ioError ∧
    (∃ e, add_data wrFresh wwOcc 5 none [] = Except.error e) :=
  ⟨by decide, npy_writer_no_overwrite.1 wwOcc ("/tmp/f.npy") [] (by decide),
   npy_writer_no_overwrite.2 wrFresh wwOcc 5 none [] (by decide)⟩

/-- C10: a writer is single-use.  A successful add_data returns a writer
marked no longer writable, and every add_data call on that returned writer
fails with RuntimeError before touching anything -- the error return carries
no new world, so no file is saved and no resource or nugget is registered. -/
theorem npy_writer_single_use (wr wr' : NpyWriter) (w w' : WriterWorld) (data : Nat)
    (uid : Option String) (custom : KV) (u : String)
    (h : add_data wr w data uid custom = Except.ok (wr', w', u)) :
    wr'.writable = false ∧
    ∀ (w2 : WriterWorld) (d2 : Nat) (u2 : Option String) (c2 : KV),
      add_data wr' w2 d2 u2 c2 = Except.error WriterErr.runtimeError := by
  unfold add_data at h
  by_cases hw : wr.writable = false
  · rw [if_pos hw] at h
    exact absurd h (by simp)
  · rw [if_neg hw] at h
    by_cases hc : custom ≠ []
    · rw [if_pos hc] at h
      exact absurd h (by simp)
    · rw [if_neg hc] at h
      by_cases he : wExists w wr.fpath = true
      · rw [if_pos he] at h
        exact absurd h (by simp)
      · rw [if_neg he] at h
        simp only [Except.ok.injEq, Prod.mk.injEq] at h
        obtain ⟨hwr, hw', hu⟩ := h
        subst hwr
        refine ⟨rfl, ?_⟩
        intro w2 d2 u2 c2
        unfold add_data
        rw [if_pos rfl]

/-- Witness for C10: the concrete successful write spends the writer and a
second call on the spent writer fails with RuntimeError. -/
theorem npy_writer_single_use_witness :
    add_data wrFresh wwEmpty 5 none [] = Except.ok (wrSpent, wwAfter, "uuid-0") ∧
    (wrSpent.writable = false ∧
     ∀ (w2 : WriterWorld) (d2 : Nat) (u2 : Option String) (c2 : KV),
       add_data wrSpent w2 d2 u2 c2 = Except.error WriterErr.runtimeError) :=
  ⟨by decide,
   npy_writer_single_use wrFresh wrSpent wwEmpty wwAfter 5 none [] ("uuid-0")
     (by decide)⟩
